import Mathlib

/-!
Shallow embedding of `src/PDT.py` (the `PD_TOL` decorator) and proofs of the
spec's claims about it.

Records are opaque (`α`); a `RecordCollection` is a `List α` carrying the
default positional index `0..n-1` (as `reset_index(drop=True)` guarantees for
every round after the first).  Exceptions are opaque values of type `ε`.

The host operation is modelled in the two storage modes the wrapper supports:
- argument-bound mode: the function receives the collection as an argument and
  either raises or returns an optional new collection; the final state of the
  (copied) argument is carried so that in-place mutations are representable;
- externally-bound (globals) mode: the function is a map from the value of the
  external binding at call time to the raised-or-not status together with the
  value the binding holds after the call.
-/

deriving instance DecidableEq for Except

namespace PDT

/-- Outcome of one call of the host operation in argument-bound mode
(`func(*ba.args, **ba.kwargs)` in `wrapper`): it raises an exception `e`, or
completes returning `ret` (`none` models Python `None`).  `arg` is the state of
the collection object that was passed in after the call — the wrapper passes a
fresh copy (`df.copy()`), so this component models in-place mutations made to
that copy. -/
inductive AttemptResult (α ε : Type) where
  | raise (e : ε) (arg : List α)
  | ok (ret : Option (List α)) (arg : List α)
  deriving DecidableEq

/-- Whether the call raised. -/
def AttemptResult.isRaise {α ε : Type} : AttemptResult α ε → Bool
  | .raise _ _ => true
  | .ok _ _ => false

/-- The verbatim outcome of a call, as the caller of the undecorated function
would see it: a raised exception propagates, a completed call yields its
return value (line 32 of `PDT.py`, the no-DataFrame fallback). -/
def AttemptResult.toExcept {α ε : Type} : AttemptResult α ε → Except ε (Option (List α))
  | .raise e _ => .error e
  | .ok r _ => .ok r

/-- Outcome of one call of the host operation in externally-bound mode: given
the value of the external binding when the call starts, `err` is `some e` when
the call raises and `glob` is the value the binding holds after the call
(raising calls may have partially mutated it). -/
structure GOutcome (α ε : Type) where
  err : Option ε
  glob : List α
  deriving DecidableEq

/-- Probe in argument-bound mode (lines 54, 60-63): run the operation on the
singleton sub-collection `df.iloc[[i]].copy()` holding just `r`, and report
whether it raised. -/
def probeFails {α ε : Type} (op : List α → AttemptResult α ε) (r : α) : Bool :=
  (op [r]).isRaise

/-- Probe in externally-bound mode (lines 54, 56-58): set the external binding
to the singleton copy holding `r`, call the operation, report whether it
raised. -/
def gprobeFails {α ε : Type} (gop : List α → GOutcome α ε) (r : α) : Bool :=
  ((gop [r]).err).isSome

/-- Fault-set bookkeeping, `bad_rows` (lines 52-63): walk the rows in index order starting
at position `i`, collecting the indices whose probe fails. -/
def badRowsFrom {α : Type} (p : α → Bool) : Nat → List α → List Nat
  | _, [] => []
  | i, r :: rs => if p r then i :: badRowsFrom p (i + 1) rs else badRowsFrom p (i + 1) rs

/-- The indices of `df` whose probe fails (`for i in df.index`, default
positional index). -/
def badRows {α : Type} (p : α → Bool) (df : List α) : List Nat :=
  badRowsFrom p 0 df

/-- Keep the rows whose index (counting from `i`) is not listed in `bad`. -/
def keepFrom {α : Type} (bad : List Nat) : Nat → List α → List α
  | _, [] => []
  | i, r :: rs =>
    if bad.contains i then keepFrom bad (i + 1) rs else r :: keepFrom bad (i + 1) rs

/-- Exclusion with compaction, `df.drop(list(bad_rows)).reset_index(drop=True)`
(line 66): drop the rows
at the listed indices and compact. -/
def dropRows {α : Type} (df : List α) (bad : List Nat) : List α :=
  keepFrom bad 0 df

/-- Observable output of one run of the wrapper in argument-bound mode.
`ret` is what the wrapped call gives its caller: the wrapper catches every
exception from batch attempts and probes, so the code never constructs
`.error` — the `Except` codomain records where Python could in principle
propagate one.  `.ok none` is Python's bare `return` (line 73); `.ok (some c)`
is `return df` with `df = c`.  `trace` lists the working collection at the
start of each round (each batch attempt); `probeCalls` counts probe
invocations of the host operation. -/
structure RunOut (α ε : Type) where
  ret : Except ε (Option (List α))
  trace : List (List α)
  probeCalls : Nat
  deriving DecidableEq

/-- Total number of host-operation invocations: one batch attempt per round
plus the probes. -/
def RunOut.calls {α ε : Type} (o : RunOut α ε) : Nat :=
  o.trace.length + o.probeCalls

/-- The retry loop of `wrapper` (lines 33-74) in argument-bound mode, with
explicit fuel.  Each round: attempt `func` on a fresh copy of the current
collection; on success adopt the returned collection when one is returned
(else keep the current one) and stop; on failure probe every row, and either
stop returning the unchanged collection (no probe failed, line 68), drop the
bad rows and — if that empties the collection — bare-return (lines 70-73), or
loop on the shrunk collection.  `none` means the fuel ran out before the loop
exited; `runArgF_isSome` shows `|df| + 1` fuel always suffices. -/
def runArgF {α ε : Type} (op : List α → AttemptResult α ε) :
    Nat → List α → Option (RunOut α ε)
  | 0, _ => none
  | fuel + 1, df =>
    match op df with
    | .ok r _ => some ⟨.ok (some (r.getD df)), [df], 0⟩
    | .raise _ _ =>
      let bad := badRows (probeFails op) df
      if bad = [] then some ⟨.ok (some df), [df], df.length⟩
      else
        let df2 := dropRows df bad
        if df2.length = 0 then some ⟨.ok none, [df], df.length⟩
        else
          match runArgF op fuel df2 with
          | none => none
          | some out => some ⟨out.ret, df :: out.trace, df.length + out.probeCalls⟩

/-- The wrapper in argument-bound mode, run with the always-sufficient fuel
`|df| + 1` (`runArgF_isSome` shows the default is unreachable). -/
def runArg {α ε : Type} (op : List α → AttemptResult α ε) (df : List α) : RunOut α ε :=
  (runArgF op (df.length + 1) df).getD ⟨.ok none, [], 0⟩

/-- Observable output of one run of the wrapper in externally-bound mode.
`glob` is the value the external binding holds when the wrapped call
returns. -/
structure GRunOut (α ε : Type) where
  ret : Except ε (Option (List α))
  glob : List α
  trace : List (List α)
  probeCalls : Nat
  deriving DecidableEq

/-- Total number of host-operation invocations in externally-bound mode. -/
def GRunOut.calls {α ε : Type} (o : GRunOut α ε) : Nat :=
  o.trace.length + o.probeCalls

/-- The retry loop of `wrapper` in externally-bound mode (lines 39-42, 56-58,
70-73), with explicit fuel.  Each round writes a fresh copy of the current
collection to the external binding and calls the operation: on success the
wrapper reads the binding back, returns it, and leaves it in place; on failure
it probes every row through the binding (each probe overwrites the binding
with a singleton copy and leaves whatever the call wrote), then stops with the
unchanged collection (binding left as the last probe wrote it, or as the
failed batch call left it when there are no rows), bare-returns with the
binding set to the empty collection, or loops. -/
def runGlobalsF {α ε : Type} (gop : List α → GOutcome α ε) :
    Nat → List α → Option (GRunOut α ε)
  | 0, _ => none
  | fuel + 1, df =>
    let o := gop df
    match o.err with
    | none => some ⟨.ok (some o.glob), o.glob, [df], 0⟩
    | some _ =>
      let bad := badRows (gprobeFails gop) df
      if bad = [] then
        some ⟨.ok (some df), (df.map (fun r => (gop [r]).glob)).getLastD o.glob,
          [df], df.length⟩
      else
        let df2 := dropRows df bad
        if df2.length = 0 then some ⟨.ok none, [], [df], df.length⟩
        else
          match runGlobalsF gop fuel df2 with
          | none => none
          | some out => some ⟨out.ret, out.glob, df :: out.trace, df.length + out.probeCalls⟩

/-- The wrapper in externally-bound mode, run with the always-sufficient fuel
`|df| + 1`. -/
def runGlobals {α ε : Type} (gop : List α → GOutcome α ε) (df : List α) : GRunOut α ε :=
  (runGlobalsF gop (df.length + 1) df).getD ⟨.ok none, [], [], 0⟩

/-- A value bound at the call site or in the function's globals: either a
record collection (a `pd.DataFrame`) or some other value. -/
inductive Val (α β : Type) where
  | dfv (d : List α)
  | other (b : β)
  deriving DecidableEq

/-- Collection type test, `isinstance(value, pd.DataFrame)`. -/
def Val.isDFv {α β : Type} : Val α β → Bool
  | .dfv _ => true
  | .other _ => false

/-- Target resolution over an ordered list of bindings (lines 18-30): the
first bound value that is a record collection, if any. -/
def findDF {α β : Type} : List (Val α β) → Option (List α)
  | [] => none
  | .dfv d :: _ => some d
  | .other _ :: rest => findDF rest

/-- Rebinding of the collection argument, `ba.arguments[df_name] = c` (lines 44,
60): rebind the first
collection-valued argument to `c`, leaving everything else in place. -/
def replaceDF {α β : Type} : List (Val α β) → List α → List (Val α β)
  | [], _ => []
  | .dfv _ :: rest, c => .dfv c :: rest
  | .other b :: rest, c => .other b :: replaceDF rest c

/-- Observable output of the whole wrapped call: the caller-visible outcome
and the total number of invocations of the host operation. -/
structure TopOut (α ε : Type) where
  ret : Except ε (Option (List α))
  calls : Nat
  deriving DecidableEq

/-- The decorated function (`wrapper`, lines 8-74): resolve the target
collection — first collection-valued argument if any (lines 18-23), else first
collection-valued global binding (lines 24-30) — and run the retry loop in the
corresponding mode; with no collection anywhere, call the function once,
unmodified, and hand its outcome to the caller verbatim (line 32).  `cf` is
the operation's behaviour as a function of the full argument list (used in
argument-bound mode and in the fallback); `gb` is its behaviour as a function
of the external binding (used in externally-bound mode). -/
def PD_TOL {α β ε : Type} (cf : List (Val α β) → AttemptResult α ε)
    (gb : List α → GOutcome α ε) (args globs : List (Val α β)) : TopOut α ε :=
  match findDF args with
  | some d =>
    let out := runArg (fun c => cf (replaceDF args c)) d
    ⟨out.ret, out.calls⟩
  | none =>
    match findDF globs with
    | some d =>
      let out := runGlobals gb d
      ⟨out.ret, out.calls⟩
    | none => ⟨(cf args).toExcept, 1⟩

/-- Two argument-bound call outcomes that the wrapper cannot tell apart:
same raised-or-completed status, same exception, same return value — they may
differ arbitrarily in the in-place mutations left on the copied argument. -/
def AttemptResult.obsEq {α ε : Type} : AttemptResult α ε → AttemptResult α ε → Prop
  | .raise e _, .raise e2 _ => e = e2
  | .ok r _, .ok r2 _ => r = r2
  | _, _ => False

/-- A cross-record fault: the operation raises exactly on collections with at
least two rows, so no single-row probe reproduces the failure. -/
def opCross : List Nat → AttemptResult Nat Unit :=
  fun c => if 2 ≤ c.length then .raise () c else .ok (some c) c

/-- Externally-bound cross-record fault: raises exactly on collections with at
least two rows; a completing call appends a marker row to the binding. -/
def gopCross : List Nat → GOutcome Nat Unit :=
  fun c => if 2 ≤ c.length then ⟨some (), c⟩ else ⟨none, c ++ [1]⟩

/-- An operation that raises on every collection it is given. -/
def opAllRaise : List Nat → AttemptResult Nat Unit :=
  fun c => .raise () c

/-- Externally-bound operation that raises on every binding value. -/
def gopAllRaise : List Nat → GOutcome Nat Unit :=
  fun c => ⟨some (), c⟩

/-- A per-record-faulting operation in which every record is faulty: it raises
exactly on non-empty collections and succeeds (identically) on the empty
one. -/
def opEmptyOk : List Nat → AttemptResult Nat Unit :=
  fun c => if c.length = 0 then .ok (some c) c else .raise () c

/-- A per-record-faulting operation: raises exactly when some record is `0`,
otherwise returns every record incremented. -/
def opDropBig : List Nat → AttemptResult Nat Unit :=
  fun c => if c.any (fun r => r == 0) then .raise () c else .ok (some (c.map (fun r => r + 1))) c

/-- Raises when a single row with value `7` is present; leaves its argument
copy as it received it. -/
def opMutA : List Nat → AttemptResult Nat Unit :=
  fun c => if c.any (fun r => r == 7) then .raise () c else .ok (some c) c

/-- Observationally the same operation as `opMutA`, but a failing call trashes
the argument copy it was given. -/
def opMutB : List Nat → AttemptResult Nat Unit :=
  fun c => if c.any (fun r => r == 7) then .raise () [99] else .ok (some c) [99]

/-- Externally-bound operation raising on singleton bindings, mutating the
binding on every call. -/
def gopMutA : List Nat → GOutcome Nat Unit :=
  fun c => if c.length = 1 then ⟨some (), c ++ [5]⟩ else ⟨none, c.map (fun r => r + 1)⟩

/-- Same observable status and success output as `gopMutA`, but a failing call
leaves the binding empty. -/
def gopMutB : List Nat → GOutcome Nat Unit :=
  fun c => if c.length = 1 then ⟨some (), []⟩ else ⟨none, c.map (fun r => r + 1)⟩

/-- An always-succeeding operation returning a new collection. -/
def opOk : List Nat → AttemptResult Nat Unit :=
  fun c => .ok (some (c.map (fun r => r + 1))) c

/-- An always-succeeding externally-bound operation that rewrites the
binding. -/
def gopOk : List Nat → GOutcome Nat Unit :=
  fun c => ⟨none, c.map (fun r => r + 1)⟩

/-- An operation that completes without a return value (Python `None`) while
mutating the copy it was handed. -/
def opNoneRet : List Nat → AttemptResult Nat Unit :=
  fun c => .ok none (c ++ c)

/-- Concrete call-behaviour for the resolution claim: ignores its arguments
and completes. -/
def cfW : List (Val Nat Nat) → AttemptResult Nat Unit :=
  fun _ => .ok (some [1]) []

/-- Concrete call-behaviour that raises, for the verbatim-fallback claim. -/
def cfRaise : List (Val Nat Nat) → AttemptResult Nat Unit :=
  fun _ => .raise () []

/-- Concrete externally-bound behaviour for the resolution claim. -/
def gbW : List Nat → GOutcome Nat Unit :=
  fun g => ⟨none, g⟩

/-- Indices collected from position `i` onwards are at least `i`. -/
theorem mem_badRowsFrom_le {α : Type} {p : α → Bool} :
    ∀ {i k : Nat} {df : List α}, k ∈ badRowsFrom p i df → i ≤ k := by
  intro i k df
  induction df generalizing i with
  | nil => intro h; simp [badRowsFrom] at h
  | cons r rs ih =>
    intro h
    simp only [badRowsFrom] at h
    by_cases hp : p r
    · rw [if_pos hp] at h
      rcases List.mem_cons.mp h with h1 | h2
      · omega
      · have := ih h2; omega
    · rw [if_neg hp] at h
      have := ih h; omega

/-- Dropping an index smaller than every remaining position is a no-op. -/
theorem keepFrom_cons_of_lt {α : Type} {bad : List Nat} {j : Nat} :
    ∀ {i : Nat} (df : List α), j < i → keepFrom (j :: bad) i df = keepFrom bad i df := by
  intro i df
  induction df generalizing i with
  | nil => intro _; rfl
  | cons r rs ih =>
    intro hj
    simp only [keepFrom]
    have hc : ((j :: bad).contains i) = (bad.contains i) := by
      by_cases hmem : i ∈ bad
      · have h1 : (j :: bad).contains i = true :=
          List.elem_iff.mpr (List.mem_cons_of_mem j hmem)
        have h2 : bad.contains i = true := List.elem_iff.mpr hmem
        rw [h1, h2]
      · have h1 : (j :: bad).contains i = false := by
          rcases h : (j :: bad).contains i with _ | _
          · rfl
          · rcases List.mem_cons.mp (List.elem_iff.mp h) with he | he
            · omega
            · exact absurd he hmem
        have h2 : bad.contains i = false := by
          rcases h : bad.contains i with _ | _
          · rfl
          · exact absurd (List.elem_iff.mp h) hmem
        rw [h1, h2]
    rw [hc]
    by_cases hb : bad.contains i
    · rw [if_pos hb, if_pos hb, ih (show j < i + 1 by omega)]
    · rw [if_neg hb, if_neg hb, ih (show j < i + 1 by omega)]

/-- Dropping exactly the rows whose probe fails keeps exactly the rows whose
probe succeeds: `df.drop(list(bad_rows)).reset_index(drop=True)` computes
`df.filter (fun r => !(p r))`. -/
theorem keepFrom_badRowsFrom {α : Type} (p : α → Bool) :
    ∀ (df : List α) (i : Nat),
      keepFrom (badRowsFrom p i df) i df = df.filter (fun r => !(p r)) := by
  intro df
  induction df with
  | nil => intro i; rfl
  | cons r rs ih =>
    intro i
    by_cases hp : p r
    · have hbr : badRowsFrom p i (r :: rs) = i :: badRowsFrom p (i + 1) rs := by
        simp [badRowsFrom, hp]
      rw [hbr]
      have hct : ((i :: badRowsFrom p (i + 1) rs).contains i) = true :=
        List.elem_iff.mpr (List.mem_cons_self i _)
      simp only [keepFrom, hct, if_true]
      rw [keepFrom_cons_of_lt rs (by omega), ih (i + 1)]
      simp [List.filter, hp]
    · have hbr : badRowsFrom p i (r :: rs) = badRowsFrom p (i + 1) rs := by
        simp [badRowsFrom, hp]
      rw [hbr]
      have hct : ((badRowsFrom p (i + 1) rs).contains i) = false := by
        rcases hcb : (badRowsFrom p (i + 1) rs).contains i with _ | _
        · rfl
        · have := mem_badRowsFrom_le (List.elem_iff.mp hcb); omega
      simp only [keepFrom, hct, Bool.false_eq_true, if_false]
      rw [ih (i + 1)]
      simp [List.filter, hp]

/-- `dropRows` on the collected bad rows is filtering by a succeeding probe. -/
theorem dropRows_badRows {α : Type} (p : α → Bool) (df : List α) :
    dropRows df (badRows p df) = df.filter (fun r => !(p r)) :=
  keepFrom_badRowsFrom p df 0

/-- The fault set is empty exactly when no row's probe fails. -/
theorem badRowsFrom_eq_nil {α : Type} (p : α → Bool) :
    ∀ (df : List α) (i : Nat), badRowsFrom p i df = [] ↔ ∀ r ∈ df, p r = false := by
  intro df
  induction df with
  | nil => intro i; simp [badRowsFrom]
  | cons r rs ih =>
    intro i
    by_cases hp : p r
    · simp [badRowsFrom, hp]
    · have hbr : badRowsFrom p i (r :: rs) = badRowsFrom p (i + 1) rs := by
        simp [badRowsFrom, hp]
      rw [hbr, ih (i + 1)]
      constructor
      · intro h r2 hr2
        rcases List.mem_cons.mp hr2 with h1 | h2
        · subst h1; exact Bool.eq_false_iff.mpr hp
        · exact h r2 h2
      · intro h r2 hr2; exact h r2 (List.mem_cons_of_mem r hr2)

/-- A non-empty fault set makes the dropped collection strictly shorter. -/
theorem length_dropRows_lt {α : Type} {p : α → Bool} {df : List α}
    (hb : badRows p df ≠ []) :
    (dropRows df (badRows p df)).length < df.length := by
  rw [dropRows_badRows]
  apply List.length_filter_lt_length_iff_exists.mpr
  by_contra hno
  push_neg at hno
  exact hb ((badRowsFrom_eq_nil p df 0).mpr (by
    intro r hr
    have := hno r hr
    simpa using this))

/-- Round equation, success case: a completing batch attempt ends the loop,
adopting the returned collection when one is returned. -/
theorem runArgF_of_ok {α ε : Type} {op : List α → AttemptResult α ε} {df : List α}
    {r : Option (List α)} {m : List α} (h : op df = .ok r m) (fuel : Nat) :
    runArgF op (fuel + 1) df = some ⟨.ok (some (r.getD df)), [df], 0⟩ := by
  simp [runArgF, h]

/-- Round equation, irreproducible case: the batch attempt raises but no probe
fails; the loop breaks and the unchanged collection is returned. -/
theorem runArgF_of_raise_abort {α ε : Type} {op : List α → AttemptResult α ε} {df : List α}
    {e : ε} {m : List α} (h : op df = .raise e m)
    (hb : badRows (probeFails op) df = []) (fuel : Nat) :
    runArgF op (fuel + 1) df = some ⟨.ok (some df), [df], df.length⟩ := by
  simp [runArgF, h, hb]

/-- Round equation, exhaustion case: dropping the bad rows empties the
collection and the wrapper bare-returns. -/
theorem runArgF_of_raise_exhaust {α ε : Type} {op : List α → AttemptResult α ε} {df : List α}
    {e : ε} {m : List α} (h : op df = .raise e m)
    (hb : badRows (probeFails op) df ≠ [])
    (h0 : (dropRows df (badRows (probeFails op) df)).length = 0) (fuel : Nat) :
    runArgF op (fuel + 1) df = some ⟨.ok none, [df], df.length⟩ := by
  simp [runArgF, h, hb, h0]

/-- Round equation, progress case: the loop continues on the shrunk
collection, with this round prepended to the trace. -/
theorem runArgF_of_raise_step {α ε : Type} {op : List α → AttemptResult α ε} {df : List α}
    {e : ε} {m : List α} (h : op df = .raise e m)
    (hb : badRows (probeFails op) df ≠ [])
    (h0 : (dropRows df (badRows (probeFails op) df)).length ≠ 0) (fuel : Nat) :
    runArgF op (fuel + 1) df =
      (runArgF op fuel (dropRows df (badRows (probeFails op) df))).map
        (fun out => ⟨out.ret, df :: out.trace, df.length + out.probeCalls⟩) := by
  simp only [runArgF, h, hb, if_false, h0]
  rcases runArgF op fuel (dropRows df (badRows (probeFails op) df)) with _ | out
  · simp
  · simp

/-- Fuel `|df| + 1` always suffices for the argument-bound loop. -/
theorem runArgF_isSome {α ε : Type} (op : List α → AttemptResult α ε) :
    ∀ (fuel : Nat) (df : List α), df.length < fuel → (runArgF op fuel df).isSome = true := by
  intro fuel
  induction fuel with
  | zero => intro df h; omega
  | succ n ih =>
    intro df h
    rcases hop : op df with ⟨e, m⟩ | ⟨r, m⟩
    · by_cases hb : badRows (probeFails op) df = []
      · rw [runArgF_of_raise_abort hop hb]; rfl
      · by_cases h0 : (dropRows df (badRows (probeFails op) df)).length = 0
        · rw [runArgF_of_raise_exhaust hop hb h0]; rfl
        · rw [runArgF_of_raise_step hop hb h0]
          have hlt := length_dropRows_lt hb
          have hs := ih (dropRows df (badRows (probeFails op) df)) (by omega)
          rcases hrec : runArgF op n (dropRows df (badRows (probeFails op) df)) with _ | out
          · rw [hrec] at hs; cases hs
          · rfl
    · rw [runArgF_of_ok hop]; rfl

/-- The fueled loop at the canonical fuel computes `runArg`. -/
theorem runArgF_run {α ε : Type} (op : List α → AttemptResult α ε) (df : List α) :
    runArgF op (df.length + 1) df = some (runArg op df) := by
  have h := runArgF_isSome op (df.length + 1) df (by omega)
  rcases ho : runArgF op (df.length + 1) df with _ | out
  · rw [ho] at h; cases h
  · simp [runArg, ho]

/-- Round equation for the externally-bound loop, success case. -/
theorem runGlobalsF_of_ok {α ε : Type} {gop : List α → GOutcome α ε} {df : List α}
    (h : (gop df).err = none) (fuel : Nat) :
    runGlobalsF gop (fuel + 1) df =
      some ⟨.ok (some (gop df).glob), (gop df).glob, [df], 0⟩ := by
  simp [runGlobalsF, h]

/-- Round equation for the externally-bound loop, irreproducible case: the
unchanged collection is returned while the binding is left holding whatever
the last probe wrote (or what the failed batch call wrote, when there are no
rows to probe). -/
theorem runGlobalsF_of_raise_abort {α ε : Type} {gop : List α → GOutcome α ε} {df : List α}
    {e : ε} (h : (gop df).err = some e)
    (hb : badRows (gprobeFails gop) df = []) (fuel : Nat) :
    runGlobalsF gop (fuel + 1) df =
      some ⟨.ok (some df), (df.map (fun r => (gop [r]).glob)).getLastD (gop df).glob,
        [df], df.length⟩ := by
  simp [runGlobalsF, h, hb]

/-- Round equation for the externally-bound loop, exhaustion case: the binding
is set to the empty collection and the wrapper bare-returns. -/
theorem runGlobalsF_of_raise_exhaust {α ε : Type} {gop : List α → GOutcome α ε} {df : List α}
    {e : ε} (h : (gop df).err = some e)
    (hb : badRows (gprobeFails gop) df ≠ [])
    (h0 : (dropRows df (badRows (gprobeFails gop) df)).length = 0) (fuel : Nat) :
    runGlobalsF gop (fuel + 1) df = some ⟨.ok none, [], [df], df.length⟩ := by
  simp [runGlobalsF, h, hb, h0]

/-- Round equation for the externally-bound loop, progress case. -/
theorem runGlobalsF_of_raise_step {α ε : Type} {gop : List α → GOutcome α ε} {df : List α}
    {e : ε} (h : (gop df).err = some e)
    (hb : badRows (gprobeFails gop) df ≠ [])
    (h0 : (dropRows df (badRows (gprobeFails gop) df)).length ≠ 0) (fuel : Nat) :
    runGlobalsF gop (fuel + 1) df =
      (runGlobalsF gop fuel (dropRows df (badRows (gprobeFails gop) df))).map
        (fun out => ⟨out.ret, out.glob, df :: out.trace, df.length + out.probeCalls⟩) := by
  simp only [runGlobalsF, h, hb, if_false, h0]
  rcases runGlobalsF gop fuel (dropRows df (badRows (gprobeFails gop) df)) with _ | out
  · simp
  · simp

/-- Fuel `|df| + 1` always suffices for the externally-bound loop. -/
theorem runGlobalsF_isSome {α ε : Type} (gop : List α → GOutcome α ε) :
    ∀ (fuel : Nat) (df : List α), df.length < fuel →
      (runGlobalsF gop fuel df).isSome = true := by
  intro fuel
  induction fuel with
  | zero => intro df h; omega
  | succ n ih =>
    intro df h
    rcases hop : (gop df).err with _ | e
    · rw [runGlobalsF_of_ok hop]; rfl
    · by_cases hb : badRows (gprobeFails gop) df = []
      · rw [runGlobalsF_of_raise_abort hop hb]; rfl
      · by_cases h0 : (dropRows df (badRows (gprobeFails gop) df)).length = 0
        · rw [runGlobalsF_of_raise_exhaust hop hb h0]; rfl
        · rw [runGlobalsF_of_raise_step hop hb h0]
          have hlt := length_dropRows_lt hb
          have hs := ih (dropRows df (badRows (gprobeFails gop) df)) (by omega)
          rcases hrec : runGlobalsF gop n (dropRows df (badRows (gprobeFails gop) df))
            with _ | out
          · rw [hrec] at hs; cases hs
          · rfl

/-- The fueled externally-bound loop at the canonical fuel computes
`runGlobals`. -/
theorem runGlobalsF_run {α ε : Type} (gop : List α → GOutcome α ε) (df : List α) :
    runGlobalsF gop (df.length + 1) df = some (runGlobals gop df) := by
  have h := runGlobalsF_isSome gop (df.length + 1) df (by omega)
  rcases ho : runGlobalsF gop (df.length + 1) df with _ | out
  · rw [ho] at h; cases h
  · simp [runGlobals, ho]

/-- Trace invariants of the argument-bound loop: the trace starts at the
initial collection; each round's collection is the previous one filtered to
the rows whose solo probe succeeds, and is strictly shorter; and there are at
most `|df| + 1` rounds. -/
theorem runArgF_trace {α ε : Type} (op : List α → AttemptResult α ε) :
    ∀ (fuel : Nat) (df : List α) (out : RunOut α ε), runArgF op fuel df = some out →
      out.trace.head? = some df ∧
      List.Chain' (fun d d2 =>
        d2 = d.filter (fun r => !(probeFails op r)) ∧ d2.length < d.length) out.trace ∧
      out.trace.length ≤ df.length + 1 := by
  intro fuel
  induction fuel with
  | zero => intro df out h; cases h
  | succ n ih =>
    intro df out h
    rcases hop : op df with ⟨e, m⟩ | ⟨r, m⟩
    · by_cases hb : badRows (probeFails op) df = []
      · rw [runArgF_of_raise_abort hop hb] at h
        cases h
        refine ⟨rfl, List.chain'_singleton df, by simp⟩
      · by_cases h0 : (dropRows df (badRows (probeFails op) df)).length = 0
        · rw [runArgF_of_raise_exhaust hop hb h0] at h
          cases h
          refine ⟨rfl, List.chain'_singleton df, by simp⟩
        · rw [runArgF_of_raise_step hop hb h0] at h
          rcases hrec : runArgF op n (dropRows df (badRows (probeFails op) df))
            with _ | out2
          · rw [hrec] at h; cases h
          · rw [hrec] at h
            cases h
            obtain ⟨hh, hch, hlen⟩ := ih _ out2 hrec
            have hflt : dropRows df (badRows (probeFails op) df) =
                df.filter (fun r => !(probeFails op r)) :=
              dropRows_badRows (probeFails op) df
            have hlt := length_dropRows_lt hb
            refine ⟨rfl, ?_, ?_⟩
            · refine List.chain'_cons'.mpr ⟨?_, hch⟩
              intro y hy
              rw [hh] at hy
              cases hy
              exact ⟨hflt, hlt⟩
            · simp only [List.length_cons]
              omega
    · rw [runArgF_of_ok hop] at h
      cases h
      refine ⟨rfl, List.chain'_singleton df, by simp⟩

/-- Trace invariants of the externally-bound loop. -/
theorem runGlobalsF_trace {α ε : Type} (gop : List α → GOutcome α ε) :
    ∀ (fuel : Nat) (df : List α) (out : GRunOut α ε), runGlobalsF gop fuel df = some out →
      out.trace.head? = some df ∧
      List.Chain' (fun d d2 =>
        d2 = d.filter (fun r => !(gprobeFails gop r)) ∧ d2.length < d.length) out.trace ∧
      out.trace.length ≤ df.length + 1 := by
  intro fuel
  induction fuel with
  | zero => intro df out h; cases h
  | succ n ih =>
    intro df out h
    rcases hop : (gop df).err with _ | e
    · rw [runGlobalsF_of_ok hop] at h
      cases h
      refine ⟨rfl, List.chain'_singleton df, by simp⟩
    · by_cases hb : badRows (gprobeFails gop) df = []
      · rw [runGlobalsF_of_raise_abort hop hb] at h
        cases h
        refine ⟨rfl, List.chain'_singleton df, by simp⟩
      · by_cases h0 : (dropRows df (badRows (gprobeFails gop) df)).length = 0
        · rw [runGlobalsF_of_raise_exhaust hop hb h0] at h
          cases h
          refine ⟨rfl, List.chain'_singleton df, by simp⟩
        · rw [runGlobalsF_of_raise_step hop hb h0] at h
          rcases hrec : runGlobalsF gop n (dropRows df (badRows (gprobeFails gop) df))
            with _ | out2
          · rw [hrec] at h; cases h
          · rw [hrec] at h
            cases h
            obtain ⟨hh, hch, hlen⟩ := ih _ out2 hrec
            have hflt : dropRows df (badRows (gprobeFails gop) df) =
                df.filter (fun r => !(gprobeFails gop r)) :=
              dropRows_badRows (gprobeFails gop) df
            have hlt := length_dropRows_lt hb
            refine ⟨rfl, ?_, ?_⟩
            · refine List.chain'_cons'.mpr ⟨?_, hch⟩
              intro y hy
              rw [hh] at hy
              cases hy
              exact ⟨hflt, hlt⟩
            · simp only [List.length_cons]
              omega

/-- Observationally equal operations give equal probe outcomes. -/
theorem probeFails_congr {α ε : Type} {op1 op2 : List α → AttemptResult α ε}
    (hobs : ∀ c, (op1 c).obsEq (op2 c)) : probeFails op1 = probeFails op2 := by
  funext r
  have h := hobs [r]
  rcases h1 : op1 [r] with ⟨e, m⟩ | ⟨s, m⟩ <;> rcases h2 : op2 [r] with ⟨e2, m2⟩ | ⟨s2, m2⟩ <;>
    rw [h1, h2] at h <;> simp only [AttemptResult.obsEq] at h <;>
    simp [probeFails, h1, h2, AttemptResult.isRaise]

/-- Frame property of the argument-bound loop: the run is fully determined by
the observable behaviour of the operation — what a call does to the fresh copy
it was handed (the `arg` component, success or failure) never influences the
run. -/
theorem runArgF_frame {α ε : Type} {op1 op2 : List α → AttemptResult α ε}
    (hobs : ∀ c, (op1 c).obsEq (op2 c)) :
    ∀ (fuel : Nat) (df : List α), runArgF op1 fuel df = runArgF op2 fuel df := by
  have hpf := probeFails_congr hobs
  intro fuel
  induction fuel with
  | zero => intro df; rfl
  | succ n ih =>
    intro df
    have h := hobs df
    rcases h1 : op1 df with ⟨e, m⟩ | ⟨s, m⟩ <;> rcases h2 : op2 df with ⟨e2, m2⟩ | ⟨s2, m2⟩ <;>
      rw [h1, h2] at h <;> simp only [AttemptResult.obsEq] at h
    · by_cases hb : badRows (probeFails op1) df = []
      · have hb2 : badRows (probeFails op2) df = [] := by rw [← hpf]; exact hb
        rw [runArgF_of_raise_abort h1 hb, runArgF_of_raise_abort h2 hb2]
      · have hb2 : badRows (probeFails op2) df ≠ [] := by rw [← hpf]; exact hb
        have hdd : dropRows df (badRows (probeFails op1) df) =
            dropRows df (badRows (probeFails op2) df) := by rw [hpf]
        by_cases h0 : (dropRows df (badRows (probeFails op1) df)).length = 0
        · have h02 : (dropRows df (badRows (probeFails op2) df)).length = 0 := by
            rw [← hdd]; exact h0
          rw [runArgF_of_raise_exhaust h1 hb h0, runArgF_of_raise_exhaust h2 hb2 h02]
        · have h02 : (dropRows df (badRows (probeFails op2) df)).length ≠ 0 := by
            rw [← hdd]; exact h0
          rw [runArgF_of_raise_step h1 hb h0, runArgF_of_raise_step h2 hb2 h02, hdd, ih]
    · rw [runArgF_of_ok h1, runArgF_of_ok h2, h]

/-- Invariance of `runArg` under changes to the in-place mutations of argument
copies. -/
theorem runArg_frame {α ε : Type} {op1 op2 : List α → AttemptResult α ε}
    (hobs : ∀ c, (op1 c).obsEq (op2 c)) (df : List α) :
    runArg op1 df = runArg op2 df := by
  unfold runArg
  rw [runArgF_frame hobs]

/-- Externally-bound operations agreeing on raise status and on successful
writes give equal probe outcomes. -/
theorem gprobeFails_congr {α ε : Type} {gop1 gop2 : List α → GOutcome α ε}
    (herr : ∀ c, (gop1 c).err = (gop2 c).err) : gprobeFails gop1 = gprobeFails gop2 := by
  funext r
  simp [gprobeFails, herr [r]]

/-- The last element of a non-empty list does not depend on the default. -/
theorem getLastD_congr {γ : Type} :
    ∀ (l : List γ), l ≠ [] → ∀ (a b : γ), l.getLastD a = l.getLastD b := by
  intro l
  cases l with
  | nil => intro h; exact absurd rfl h
  | cons x xs => intro _ a b; simp [List.getLastD]

/-- Frame property of the externally-bound loop: runs of two operations that
agree on raise status everywhere and on the binding they leave behind on
success have the same returned value, round trace and probe count; and, for a
non-empty collection, the same final binding — what a failing call wrote to
the binding never influences any of these. -/
theorem runGlobalsF_frame {α ε : Type} {gop1 gop2 : List α → GOutcome α ε}
    (herr : ∀ c, (gop1 c).err = (gop2 c).err)
    (hglob : ∀ c, (gop1 c).err = none → (gop1 c).glob = (gop2 c).glob) :
    ∀ (fuel : Nat) (df : List α) (out1 out2 : GRunOut α ε),
      runGlobalsF gop1 fuel df = some out1 → runGlobalsF gop2 fuel df = some out2 →
      out1.ret = out2.ret ∧ out1.trace = out2.trace ∧
      out1.probeCalls = out2.probeCalls ∧ (df ≠ [] → out1.glob = out2.glob) := by
  have hpf : gprobeFails gop1 = gprobeFails gop2 := gprobeFails_congr herr
  intro fuel
  induction fuel with
  | zero => intro df out1 out2 hr1; cases hr1
  | succ n ih =>
    intro df out1 out2 hr1 hr2
    rcases hop : (gop1 df).err with _ | e
    · have hop2 : (gop2 df).err = none := by rw [← herr df]; exact hop
      rw [runGlobalsF_of_ok hop] at hr1
      rw [runGlobalsF_of_ok hop2] at hr2
      cases hr1
      cases hr2
      have hg := hglob df hop
      exact ⟨by rw [hg], rfl, rfl, fun _ => hg⟩
    · have hop2 : (gop2 df).err = some e := by rw [← herr df]; exact hop
      by_cases hb : badRows (gprobeFails gop1) df = []
      · have hb2 : badRows (gprobeFails gop2) df = [] := by rw [← hpf]; exact hb
        rw [runGlobalsF_of_raise_abort hop hb] at hr1
        rw [runGlobalsF_of_raise_abort hop2 hb2] at hr2
        cases hr1
        cases hr2
        refine ⟨rfl, rfl, rfl, fun hdf => ?_⟩
        have hall : ∀ r ∈ df, gprobeFails gop1 r = false :=
          (badRowsFrom_eq_nil (gprobeFails gop1) df 0).mp hb
        have hmap : df.map (fun r => (gop1 [r]).glob) = df.map (fun r => (gop2 [r]).glob) := by
          apply List.map_congr_left
          intro r hr
          apply hglob [r]
          have hfalse := hall r hr
          rcases he : (gop1 [r]).err with _ | e2
          · rfl
          · rw [gprobeFails, he] at hfalse; cases hfalse
        rw [hmap]
        apply getLastD_congr
        simp [hdf]
      · have hb2 : badRows (gprobeFails gop2) df ≠ [] := by rw [← hpf]; exact hb
        have hdd : dropRows df (badRows (gprobeFails gop1) df) =
            dropRows df (badRows (gprobeFails gop2) df) := by rw [hpf]
        by_cases h0 : (dropRows df (badRows (gprobeFails gop1) df)).length = 0
        · have h02 : (dropRows df (badRows (gprobeFails gop2) df)).length = 0 := by
            rw [← hdd]; exact h0
          rw [runGlobalsF_of_raise_exhaust hop hb h0] at hr1
          rw [runGlobalsF_of_raise_exhaust hop2 hb2 h02] at hr2
          cases hr1
          cases hr2
          exact ⟨rfl, rfl, rfl, fun _ => rfl⟩
        · have h02 : (dropRows df (badRows (gprobeFails gop2) df)).length ≠ 0 := by
            rw [← hdd]; exact h0
          rw [runGlobalsF_of_raise_step hop hb h0] at hr1
          rw [runGlobalsF_of_raise_step hop2 hb2 h02] at hr2
          rw [← hdd] at hr2
          obtain ⟨o1, ho1, hfo1⟩ := Option.map_eq_some'.mp hr1
          obtain ⟨o2, ho2, hfo2⟩ := Option.map_eq_some'.mp hr2
          have hne2 : dropRows df (badRows (gprobeFails gop1) df) ≠ [] := by
            intro hc; rw [hc] at h0; exact h0 rfl
          obtain ⟨hret, htr, hpc, hgl⟩ := ih _ o1 o2 ho1 ho2
          subst hfo1
          subst hfo2
          exact ⟨hret, by rw [htr], by rw [hpc], fun _ => hgl hne2⟩

/-- Frame property at the `runGlobals` level. -/
theorem runGlobals_frame {α ε : Type} {gop1 gop2 : List α → GOutcome α ε}
    (herr : ∀ c, (gop1 c).err = (gop2 c).err)
    (hglob : ∀ c, (gop1 c).err = none → (gop1 c).glob = (gop2 c).glob) (df : List α) :
    (runGlobals gop1 df).ret = (runGlobals gop2 df).ret ∧
    (runGlobals gop1 df).trace = (runGlobals gop2 df).trace ∧
    (runGlobals gop1 df).probeCalls = (runGlobals gop2 df).probeCalls ∧
    (df ≠ [] → (runGlobals gop1 df).glob = (runGlobals gop2 df).glob) :=
  runGlobalsF_frame herr hglob (df.length + 1) df _ _
    (runGlobalsF_run gop1 df) (runGlobalsF_run gop2 df)

/-- Skipping a block of non-collection bindings does not change resolution. -/
theorem findDF_append_of_noDF {α β : Type} :
    ∀ (pre rest : List (Val α β)), (∀ v ∈ pre, v.isDFv = false) →
      findDF (pre ++ rest) = findDF rest := by
  intro pre
  induction pre with
  | nil => intro rest _; rfl
  | cons v vs ih =>
    intro rest h
    cases v with
    | dfv d => have hv := h _ (List.mem_cons_self _ _); cases hv
    | other b =>
      simp only [List.cons_append, findDF]
      exact ih rest (fun w hw => h w (List.mem_cons_of_mem _ hw))

/-- Resolution finds nothing among bindings none of which is a collection. -/
theorem findDF_none_of_noDF {α β : Type} :
    ∀ (l : List (Val α β)), (∀ v ∈ l, v.isDFv = false) → findDF l = none := by
  intro l
  induction l with
  | nil => intro _; rfl
  | cons v vs ih =>
    intro h
    cases v with
    | dfv d => have hv := h _ (List.mem_cons_self _ _); cases hv
    | other b =>
      simp only [findDF]
      exact ih (fun w hw => h w (List.mem_cons_of_mem _ hw))

/-- Claim C1, counterexample.  `opCross` fails on the full two-row collection
but succeeds on each row alone (empty fault set).  The claim says the wrapped
call surfaces the original batch failure (`Aborted`); in fact the wrapper
swallows the exception (`break` at line 68 followed by `return df`) and
returns the collection normally — the outcome is a normal return of the
unmodified collection, not an error. -/
theorem C1_counterexample :
    opCross [0, 1] = .raise () [0, 1] ∧
    probeFails opCross 0 = false ∧ probeFails opCross 1 = false ∧
    (runArg opCross [0, 1]).ret = .ok (some [0, 1]) ∧
    (runArg opCross [0, 1]).ret ≠ .error () := by
  decide

/-- Claim C1, amended: if the batch attempt raises and no record's solo probe
fails, the wrapped call performs no exclusion and immediately returns the
current collection unchanged — but it suppresses the original error rather
than surfacing it (in externally-bound mode the external binding is left as
the last probe's call wrote it). -/
theorem C1_amended {α ε : Type} (op : List α → AttemptResult α ε)
    (gop : List α → GOutcome α ε) (df g : List α) (e : ε) (m : List α) (e2 : ε)
    (h1 : op df = .raise e m) (h2 : ∀ r ∈ df, probeFails op r = false)
    (h3 : (gop g).err = some e2) (h4 : ∀ r ∈ g, gprobeFails gop r = false) :
    runArg op df = ⟨.ok (some df), [df], df.length⟩ ∧
    runGlobals gop g =
      ⟨.ok (some g), (g.map (fun r => (gop [r]).glob)).getLastD (gop g).glob,
        [g], g.length⟩ := by
  have hb : badRows (probeFails op) df = [] :=
    (badRowsFrom_eq_nil (probeFails op) df 0).mpr h2
  have hbg : badRows (gprobeFails gop) g = [] :=
    (badRowsFrom_eq_nil (gprobeFails gop) g 0).mpr h4
  constructor
  · exact Option.some.inj
      ((runArgF_run op df).symm.trans (runArgF_of_raise_abort h1 hb df.length))
  · exact Option.some.inj
      ((runGlobalsF_run gop g).symm.trans (runGlobalsF_of_raise_abort h3 hbg g.length))

/-- Claim C1, witness for the amended statement at a concrete cross-record
fault. -/
theorem C1_witness :
    runArg opCross [0, 1] = ⟨.ok (some [0, 1]), [[0, 1]], 2⟩ ∧
    runGlobals gopCross [4, 5] = ⟨.ok (some [4, 5]), [5, 1], [[4, 5]], 2⟩ :=
  C1_amended opCross gopCross [0, 1] [4, 5] () [0, 1] () rfl (by decide) rfl (by decide)

/-- Claim C2, counterexample.  Every record of `[5]` individually fails; the
wrapped call terminates without error, but it does not return an empty
collection: the argument-bound wrapper bare-returns (Python `None`, line 73).
Only the externally-bound binding is set to the empty collection. -/
theorem C2_counterexample :
    (opAllRaise [5]).isRaise = true ∧ probeFails opAllRaise 5 = true ∧
    (runArg opAllRaise [5]).ret = .ok none ∧
    (runArg opAllRaise [5]).ret ≠ .ok (some []) ∧
    (runGlobals gopAllRaise [5]).ret = .ok none ∧
    (runGlobals gopAllRaise [5]).glob = [] := by
  decide

/-- Claim C2, amended: if the batch attempt fails and every record of the
non-empty collection individually fails when probed, the wrapped call
terminates normally after one round, returning `None` (not a collection) in
both modes; in externally-bound mode the external binding is set to the empty
collection. -/
theorem C2_amended {α ε : Type} (op : List α → AttemptResult α ε)
    (gop : List α → GOutcome α ε) (df g : List α) (hdf : df ≠ []) (hg : g ≠ [])
    (h1 : (op df).isRaise = true) (h2 : ∀ r ∈ df, probeFails op r = true)
    (h3 : ((gop g).err).isSome = true) (h4 : ∀ r ∈ g, gprobeFails gop r = true) :
    runArg op df = ⟨.ok none, [df], df.length⟩ ∧
    runGlobals gop g = ⟨.ok none, [], [g], g.length⟩ := by
  constructor
  · rcases hop : op df with ⟨e, m⟩ | ⟨r, m⟩
    · have hb : badRows (probeFails op) df ≠ [] := by
        intro hc
        obtain ⟨x, hx⟩ := List.exists_mem_of_ne_nil df hdf
        have hfalse := (badRowsFrom_eq_nil (probeFails op) df 0).mp hc x hx
        rw [h2 x hx] at hfalse
        cases hfalse
      have h0 : (dropRows df (badRows (probeFails op) df)).length = 0 := by
        rw [dropRows_badRows]
        have hnil : df.filter (fun r => !(probeFails op r)) = [] := by
          apply List.filter_eq_nil_iff.mpr
          intro a ha
          simp [h2 a ha]
        rw [hnil]
        rfl
      exact Option.some.inj
        ((runArgF_run op df).symm.trans (runArgF_of_raise_exhaust hop hb h0 df.length))
    · rw [hop] at h1; cases h1
  · rcases hop : (gop g).err with _ | e
    · rw [hop] at h3; cases h3
    · have hb : badRows (gprobeFails gop) g ≠ [] := by
        intro hc
        obtain ⟨x, hx⟩ := List.exists_mem_of_ne_nil g hg
        have hfalse := (badRowsFrom_eq_nil (gprobeFails gop) g 0).mp hc x hx
        rw [h4 x hx] at hfalse
        cases hfalse
      have h0 : (dropRows g (badRows (gprobeFails gop) g)).length = 0 := by
        rw [dropRows_badRows]
        have hnil : g.filter (fun r => !(gprobeFails gop r)) = [] := by
          apply List.filter_eq_nil_iff.mpr
          intro a ha
          simp [h4 a ha]
        rw [hnil]
        rfl
      exact Option.some.inj
        ((runGlobalsF_run gop g).symm.trans (runGlobalsF_of_raise_exhaust hop hb h0 g.length))

/-- Claim C2, witness for the amended statement: a singleton collection whose
only record fails. -/
theorem C2_witness :
    runArg opAllRaise [5] = ⟨.ok none, [[5]], 1⟩ ∧
    runGlobals gopAllRaise [5] = ⟨.ok none, [], [[5]], 1⟩ :=
  C2_amended opAllRaise gopAllRaise [5] [5] (by decide) (by decide) rfl (by decide) rfl
    (by decide)

/-- Claim C3, counterexample.  `opEmptyOk` has a failure condition depending
only on single-record content (every record is faulty) and succeeds on the
empty collection returning it.  On `[7]` the claim demands the result of the
operation on the maximal good sub-collection — `.ok (some [])` — but the
wrapped call returns `None` (the exhaustion bare-return). -/
theorem C3_counterexample :
    (opEmptyOk [7]).isRaise = true ∧ probeFails opEmptyOk 7 = true ∧
    opEmptyOk [] = .ok (some []) [] ∧
    (runArg opEmptyOk [7]).ret = .ok none ∧
    (runArg opEmptyOk [7]).ret ≠ .ok (some []) := by
  decide

/-- Claim C3, amended: for an operation whose failure condition depends only
on single-record content (it raises exactly when some record is `bad`, and on
good collections returns `f` of its input), the wrapped call returns the
operation applied to the maximal sub-collection of individually succeeding
records — provided that sub-collection is non-empty or the whole collection
is empty; otherwise the wrapper returns `None` instead. -/
theorem C3_amended {α ε : Type} (op : List α → AttemptResult α ε) (bad : α → Bool)
    (f : List α → List α) (df : List α)
    (h1 : ∀ c, (op c).isRaise = c.any bad)
    (h2 : ∀ c, c.any bad = false → ∃ m, op c = .ok (some (f c)) m)
    (hgood : df.any (fun r => !(bad r)) = true ∨ df = []) :
    (runArg op df).ret = .ok (some (f (df.filter (fun r => !(bad r))))) := by
  have hp : probeFails op = bad := by
    funext r
    have hr := h1 [r]
    simp only [List.any_cons, List.any_nil, Bool.or_false] at hr
    exact hr
  rcases hA : df.any bad with _ | _
  · obtain ⟨m, hm⟩ := h2 df hA
    have hnone : ∀ a ∈ df, bad a = false := by
      intro a ha
      rcases hba : bad a with _ | _
      · rfl
      · exact absurd hA (by simp [List.any_eq_true]; exact ⟨a, ha, hba⟩)
    have hflt : df.filter (fun r => !(bad r)) = df := by
      apply List.filter_eq_self.mpr
      intro a ha
      simp [hnone a ha]
    have h5 := Option.some.inj ((runArgF_run op df).symm.trans (runArgF_of_ok hm df.length))
    rw [h5, hflt]
    exact rfl
  · have hraise : (op df).isRaise = true := by rw [h1 df, hA]
    rcases hop : op df with ⟨e, m⟩ | ⟨r, m⟩
    · have hdfne : df ≠ [] := by
        intro hc
        rw [hc] at hA
        cases hA
      have hb : badRows (probeFails op) df ≠ [] := by
        rw [hp]
        intro hc
        obtain ⟨x, hx, hbx⟩ := List.any_eq_true.mp hA
        have hfalse := (badRowsFrom_eq_nil bad df 0).mp hc x hx
        rw [hfalse] at hbx
        cases hbx
      have hdd : dropRows df (badRows (probeFails op) df) = df.filter (fun r => !(bad r)) := by
        rw [hp, dropRows_badRows]
      have hfne : df.filter (fun r => !(bad r)) ≠ [] := by
        rcases hgood with hgd | hgd
        · obtain ⟨x, hx, hbx⟩ := List.any_eq_true.mp hgd
          intro hc
          have hmem : x ∈ df.filter (fun r => !(bad r)) := List.mem_filter.mpr ⟨hx, hbx⟩
          rw [hc] at hmem
          cases hmem
        · exact absurd hgd hdfne
      have h0 : (dropRows df (badRows (probeFails op) df)).length ≠ 0 := by
        rw [hdd]
        intro hc
        exact hfne (List.length_eq_zero.mp hc)
      have hno2 : (df.filter (fun r => !(bad r))).any bad = false := by
        apply List.any_eq_false.mpr
        intro x hx
        have hxg : bad x = false := by simpa using (List.mem_filter.mp hx).2
        simp [hxg]
      obtain ⟨m2, hm2⟩ := h2 _ hno2
      obtain ⟨k, hk⟩ : ∃ k, df.length = k + 1 := by
        rcases df with _ | ⟨a, as⟩
        · exact absurd rfl hdfne
        · exact ⟨as.length, rfl⟩
      have hinner : runArgF op df.length (df.filter (fun r => !(bad r))) =
          some ⟨.ok (some (f (df.filter (fun r => !(bad r))))),
            [df.filter (fun r => !(bad r))], 0⟩ := by
        rw [hk]
        exact runArgF_of_ok hm2 k
      have hstep := runArgF_of_raise_step hop hb h0 df.length
      rw [hdd, hinner] at hstep
      have h5 := Option.some.inj ((runArgF_run op df).symm.trans hstep)
      rw [h5]
    · rw [hop] at hraise
      cases hraise

/-- Claim C3, witness for the amended statement: records valued `0` are
faulty, the operation increments the others. -/
theorem C3_witness :
    (runArg opDropBig [0, 3, 0, 4]).ret = .ok (some [4, 5]) := by
  have h := C3_amended opDropBig (fun r => r == 0) (fun c => c.map (fun r => r + 1))
    [0, 3, 0, 4]
    (by
      intro c
      rcases hc : c.any (fun r => r == 0) with _ | _ <;>
        simp [opDropBig, hc, AttemptResult.isRaise])
    (by
      intro c hc
      exact ⟨c, by simp [opDropBig, hc]⟩)
    (by left; decide)
  exact h.trans (by decide)

/-- Claim C4 (confirmed): every attempt runs on a fresh copy, so the run is a
function of the operation's observable behaviour only — two operations whose
failing calls mutate their copies (argument-bound) or the binding
(externally-bound) differently, but agree otherwise, produce identical
caller-visible outcomes: same results, same rounds, same probe counts and
(for a non-empty collection) the same final external binding. -/
theorem C4_fresh_copy {α ε : Type} (op1 op2 : List α → AttemptResult α ε)
    (gop1 gop2 : List α → GOutcome α ε) (df g : List α)
    (hobs : ∀ c, (op1 c).obsEq (op2 c))
    (herr : ∀ c, (gop1 c).err = (gop2 c).err)
    (hglob : ∀ c, (gop1 c).err = none → (gop1 c).glob = (gop2 c).glob) :
    runArg op1 df = runArg op2 df ∧
    (runGlobals gop1 g).ret = (runGlobals gop2 g).ret ∧
    (runGlobals gop1 g).trace = (runGlobals gop2 g).trace ∧
    (runGlobals gop1 g).probeCalls = (runGlobals gop2 g).probeCalls ∧
    (g ≠ [] → (runGlobals gop1 g).glob = (runGlobals gop2 g).glob) := by
  obtain ⟨hret, htr, hpc, hgl⟩ := runGlobals_frame herr hglob g
  exact ⟨runArg_frame hobs df, hret, htr, hpc, hgl⟩

/-- Claim C4, witness: concrete operation pairs whose failing calls trash
their copies differently. -/
theorem C4_witness :
    runArg opMutA [7, 2] = runArg opMutB [7, 2] ∧
    (runGlobals gopMutA [3, 4]).ret = (runGlobals gopMutB [3, 4]).ret ∧
    (runGlobals gopMutA [3, 4]).trace = (runGlobals gopMutB [3, 4]).trace ∧
    (runGlobals gopMutA [3, 4]).probeCalls = (runGlobals gopMutB [3, 4]).probeCalls ∧
    ([3, 4] ≠ ([] : List Nat) →
      (runGlobals gopMutA [3, 4]).glob = (runGlobals gopMutB [3, 4]).glob) :=
  C4_fresh_copy opMutA opMutB gopMutA gopMutB [7, 2] [3, 4]
    (fun c => by
      by_cases h : c.any (fun r => r == 7)
      · simp [opMutA, opMutB, h, AttemptResult.obsEq]
      · simp [opMutA, opMutB, h, AttemptResult.obsEq])
    (fun c => by by_cases h : c.length = 1 <;> simp [gopMutA, gopMutB, h])
    (fun c hc => by
      by_cases h : c.length = 1
      · simp [gopMutA, h] at hc
      · simp [gopMutA, gopMutB, h])

/-- Claim C5 (confirmed): a first-attempt success is passed through exactly —
the wrapped call returns the operation's result, the trace has a single round
and there are no probes, so the operation was invoked exactly once. -/
theorem C5_passthrough {α ε : Type} (op : List α → AttemptResult α ε)
    (gop : List α → GOutcome α ε) (df g : List α) (res m : List α)
    (h1 : op df = .ok (some res) m) (h2 : (gop g).err = none) :
    runArg op df = ⟨.ok (some res), [df], 0⟩ ∧ (runArg op df).calls = 1 ∧
    runGlobals gop g = ⟨.ok (some (gop g).glob), (gop g).glob, [g], 0⟩ ∧
    (runGlobals gop g).calls = 1 := by
  have ha := Option.some.inj ((runArgF_run op df).symm.trans (runArgF_of_ok h1 df.length))
  have hgg := Option.some.inj
    ((runGlobalsF_run gop g).symm.trans (runGlobalsF_of_ok h2 g.length))
  refine ⟨?_, ?_, hgg, ?_⟩
  · rw [ha]; exact rfl
  · rw [ha]; exact rfl
  · rw [hgg]; exact rfl

/-- Claim C5, witness: an always-succeeding operation on a two-row
collection. -/
theorem C5_witness :
    runArg opOk [1, 2] = ⟨.ok (some [2, 3]), [[1, 2]], 0⟩ ∧
    (runArg opOk [1, 2]).calls = 1 ∧
    runGlobals gopOk [1, 2] = ⟨.ok (some [2, 3]), [2, 3], [[1, 2]], 0⟩ ∧
    (runGlobals gopOk [1, 2]).calls = 1 :=
  C5_passthrough opOk gopOk [1, 2] [1, 2] [2, 3] [1, 2] rfl rfl

/-- Claim C6 (confirmed): in every round, the next working collection is
exactly the previous one restricted to the records whose solo probe succeeds
— a record is excluded only when probing it alone reproduces a failure, never
merely for belonging to a failing batch. -/
theorem C6_exclusion_only_probed {α ε : Type} (op : List α → AttemptResult α ε)
    (gop : List α → GOutcome α ε) (df g : List α) :
    List.Chain' (fun d d2 => d2 = d.filter (fun r => !(probeFails op r)))
      (runArg op df).trace ∧
    List.Chain' (fun d d2 => d2 = d.filter (fun r => !(gprobeFails gop r)))
      (runGlobals gop g).trace := by
  obtain ⟨-, hch, -⟩ := runArgF_trace op (df.length + 1) df _ (runArgF_run op df)
  obtain ⟨-, hch2, -⟩ := runGlobalsF_trace gop (g.length + 1) g _ (runGlobalsF_run gop g)
  exact ⟨hch.imp (fun a b h => h.1), hch2.imp (fun a b h => h.1)⟩

/-- Claim C7 (confirmed): the collection length strictly decreases between
consecutive rounds (a new round only happens after a failing attempt whose
probing found at least one faulty record), hence is non-increasing across the
whole run. -/
theorem C7_monotonic_shrink {α ε : Type} (op : List α → AttemptResult α ε)
    (gop : List α → GOutcome α ε) (df g : List α) :
    List.Chain' (fun a b => b < a) ((runArg op df).trace.map List.length) ∧
    List.Chain' (fun a b => b < a) ((runGlobals gop g).trace.map List.length) := by
  obtain ⟨-, hch, -⟩ := runArgF_trace op (df.length + 1) df _ (runArgF_run op df)
  obtain ⟨-, hch2, -⟩ := runGlobalsF_trace gop (g.length + 1) g _ (runGlobalsF_run gop g)
  constructor
  · exact (List.chain'_map List.length).mpr (hch.imp (fun a b h => h.2))
  · exact (List.chain'_map List.length).mpr (hch2.imp (fun a b h => h.2))

/-- Claim C8 (confirmed): the loop always terminates within `|C| + 1` rounds —
fuel `|C| + 1` suffices for every operation and collection, and the trace of
batch attempts never exceeds `|C| + 1` rounds, in both modes. -/
theorem C8_termination_bound {α ε : Type} (op : List α → AttemptResult α ε)
    (gop : List α → GOutcome α ε) (df g : List α) :
    (runArgF op (df.length + 1) df).isSome = true ∧
    (runArg op df).trace.length ≤ df.length + 1 ∧
    (runGlobalsF gop (g.length + 1) g).isSome = true ∧
    (runGlobals gop g).trace.length ≤ g.length + 1 := by
  obtain ⟨-, -, hlen⟩ := runArgF_trace op (df.length + 1) df _ (runArgF_run op df)
  obtain ⟨-, -, hlen2⟩ := runGlobalsF_trace gop (g.length + 1) g _ (runGlobalsF_run gop g)
  exact ⟨runArgF_isSome op _ df (by omega), hlen,
    runGlobalsF_isSome gop _ g (by omega), hlen2⟩

/-- Claim C9 (confirmed): resolution prefers the first argument-bound
collection; with none, the first externally-bound one; with no collection
anywhere the wrapped call invokes the operation exactly once, on the
unmodified arguments, and hands its outcome — including a raised exception —
to the caller verbatim, with no fault isolation. -/
theorem C9_resolution {α β ε : Type} (cf : List (Val α β) → AttemptResult α ε)
    (gb : List α → GOutcome α ε)
    (pre rest globs args0 preG restG globs0 : List (Val α β)) (d d2 : List α)
    (hPre : ∀ v ∈ pre, v.isDFv = false)
    (hArgs0 : ∀ v ∈ args0, v.isDFv = false)
    (hPreG : ∀ v ∈ preG, v.isDFv = false)
    (hGlobs0 : ∀ v ∈ globs0, v.isDFv = false) :
    PD_TOL cf gb (pre ++ .dfv d :: rest) globs =
      ⟨(runArg (fun c => cf (replaceDF (pre ++ .dfv d :: rest) c)) d).ret,
        (runArg (fun c => cf (replaceDF (pre ++ .dfv d :: rest) c)) d).calls⟩ ∧
    PD_TOL cf gb args0 (preG ++ .dfv d2 :: restG) =
      ⟨(runGlobals gb d2).ret, (runGlobals gb d2).calls⟩ ∧
    PD_TOL cf gb args0 globs0 = ⟨(cf args0).toExcept, 1⟩ := by
  have hfa : findDF (pre ++ Val.dfv d :: rest) = some d := by
    rw [findDF_append_of_noDF pre _ hPre]
    rfl
  have hna : findDF args0 = none := findDF_none_of_noDF args0 hArgs0
  have hfg : findDF (preG ++ Val.dfv d2 :: restG) = some d2 := by
    rw [findDF_append_of_noDF preG _ hPreG]
    rfl
  have hng : findDF globs0 = none := findDF_none_of_noDF globs0 hGlobs0
  refine ⟨?_, ?_, ?_⟩
  · simp [PD_TOL, hfa]
  · simp [PD_TOL, hna, hfg]
  · simp [PD_TOL, hna, hng]

/-- Claim C9, witness: all three resolution outcomes at concrete argument and
global binding lists, plus verbatim propagation of a raised exception in the
fallback. -/
theorem C9_witness :
    PD_TOL cfW gbW [.other 0, .dfv [5], .other 1] [.other 9] =
      ⟨(runArg (fun c => cfW (replaceDF [.other 0, .dfv [5], .other 1] c)) [5]).ret,
        (runArg (fun c => cfW (replaceDF [.other 0, .dfv [5], .other 1] c)) [5]).calls⟩ ∧
    PD_TOL cfW gbW [.other 2] [.dfv [6]] =
      ⟨(runGlobals gbW [6]).ret, (runGlobals gbW [6]).calls⟩ ∧
    PD_TOL cfW gbW [.other 2] [.other 3] = ⟨(cfW [.other 2]).toExcept, 1⟩ ∧
    PD_TOL cfRaise gbW [.other 2] [.other 3] = ⟨.error (), 1⟩ := by
  obtain ⟨w1, w2, w3⟩ := C9_resolution cfW gbW [.other 0] [.other 1] [.other 9]
    [.other 2] [] [] [.other 3] [5] [6] (by decide) (by decide) (by decide) (by decide)
  obtain ⟨-, -, w4⟩ := C9_resolution cfRaise gbW [.other 0] [.other 1] [.other 9]
    [.other 2] [] [] [.other 3] [5] [6] (by decide) (by decide) (by decide) (by decide)
  exact ⟨w1, w2, w3, w4⟩

/-- Claim C10 (confirmed): in argument-bound mode a completing attempt that
returns `None` ends the loop with the collection as it was before that
attempt, whatever in-place mutations (`m`) the operation made to the fresh
copy it was handed. -/
theorem C10_none_return {α ε : Type} (op : List α → AttemptResult α ε) (df m : List α)
    (h : op df = .ok none m) :
    runArg op df = ⟨.ok (some df), [df], 0⟩ := by
  have h5 := Option.some.inj ((runArgF_run op df).symm.trans (runArgF_of_ok h df.length))
  rw [h5]
  exact rfl

/-- Claim C10, witness: an operation that mutates its copy and returns
nothing. -/
theorem C10_witness : runArg opNoneRet [3, 4] = ⟨.ok (some [3, 4]), [[3, 4]], 0⟩ :=
  C10_none_return opNoneRet [3, 4] ([3, 4] ++ [3, 4]) rfl

end PDT
